import Mathlib

/-!
Shallow embedding of the resilience / distributed-coordination core of the
Fluxora repository (src/code/core): circuit breaker, retry policy, fallback
chain, two-phase-commit transaction coordinator and saga orchestrator, with
theorems settling the specification claims about them.
-/

namespace Fluxora

/-! ## Circuit breaker (src/code/core/circuit_breaker.py) -/

/-- States of the circuit breaker (`CircuitState` in the source; `OPEN` is
spelled `opened` because `open` is a Lean keyword). -/
inductive CircuitState
  | closed
  | opened
  | halfOpen
deriving DecidableEq

/-- Outcome of invoking the wrapped operation once: a value, a generic
exception, or a `CircuitBreakerError` raised from inside the operation
(the source re-raises the latter without touching breaker state). -/
inductive OpOutcome (α : Type)
  | ok (a : α)
  | exc
  | breakerExc
deriving DecidableEq

/-- What `CircuitBreaker.call` does from the point of view of its caller:
return a value, propagate the operation error, or raise
`CircuitBreakerError`. -/
inductive CallResult (α : Type)
  | value (a : α)
  | raisedOp
  | raisedBreaker
deriving DecidableEq

/-- The mutable breaker state plus its immutable configuration.  The
fallback function is modelled by the value it would return (`none` when no
fallback is configured).  Timestamps are integers. -/
structure CircuitBreaker (α : Type) where
  failure_threshold : Nat
  recovery_timeout : Int
  fallback_function : Option α
  state : CircuitState
  failure_count : Nat
  last_failure_time : Int
deriving DecidableEq

/-- Result of one `call`: caller-visible result, whether the wrapped
operation was invoked, and the breaker afterwards. -/
structure CallOut (α : Type) where
  result : CallResult α
  invoked : Bool
  breaker : CircuitBreaker α
deriving DecidableEq

/-- The body of `call` after the open-state gate (the `try` block of the
source, lines 55-87): invoke the operation and update state. -/
def CircuitBreaker.execPart (b : CircuitBreaker α) (now : Int)
    (op : OpOutcome α) : CallOut α :=
  match op with
  | .ok a =>
      if b.state = .halfOpen then
        ⟨.value a, true, { b with state := .closed, failure_count := 0 }⟩
      else
        ⟨.value a, true, b⟩
  | .breakerExc => ⟨.raisedBreaker, true, b⟩
  | .exc =>
      let b1 := { b with failure_count := b.failure_count + 1,
                         last_failure_time := now }
      let b2 :=
        if b1.state = .closed ∧ b1.failure_count ≥ b1.failure_threshold then
          { b1 with state := .opened }
        else b1
      let b3 := if b2.state = .halfOpen then { b2 with state := .opened } else b2
      match b3.fallback_function with
      | some v => ⟨.value v, true, b3⟩
      | none => ⟨.raisedOp, true, b3⟩

/-- `CircuitBreaker.call` (source lines 42-87).  `now` is the value
`time.time()` would return during this call. -/
def CircuitBreaker.call (b : CircuitBreaker α) (now : Int)
    (op : OpOutcome α) : CallOut α :=
  if b.state = .opened then
    if now - b.last_failure_time > b.recovery_timeout then
      CircuitBreaker.execPart { b with state := .halfOpen } now op
    else
      match b.fallback_function with
      | some v => ⟨.value v, false, b⟩
      | none => ⟨.raisedBreaker, false, b⟩
  else
    CircuitBreaker.execPart b now op

/-- `CircuitBreaker.reset` (source lines 89-96). -/
def CircuitBreaker.reset (b : CircuitBreaker α) : CircuitBreaker α :=
  { b with state := .closed, failure_count := 0, last_failure_time := 0 }

/-- A breaker as built by `__init__`: Closed, zero failures, no fallback. -/
def freshBreaker (α : Type) (thr : Nat) (timeout : Int) : CircuitBreaker α :=
  ⟨thr, timeout, none, .closed, 0, 0⟩

/-- Fold a sequence of calls whose wrapped operation fails, at the given
call times, over a breaker. -/
def failCalls (b : CircuitBreaker α) (times : List Int) : CircuitBreaker α :=
  times.foldl (fun b t => (CircuitBreaker.call b t .exc).breaker) b

/-! ## Retry (src/code/core/retry.py) -/

/-- Caller-visible outcome of the retry wrapper: a value, a raised
exception, or the pathological `raise None` reached only when
`max_attempts = 0`. -/
inductive RetryOutcome (E α : Type)
  | ok (a : α)
  | raised (e : E)
  | raisedNone
deriving DecidableEq

/-- The attempt loop of `retry` (source lines 22-44).  `op n` is the outcome
of the n-th invocation of the wrapped function, `retryable` the membership
test of the `retry_exceptions` filter; backoff sleeps do not affect the
result or the invocation count and are not modelled.  Returns the outcome
and the number of invocations made. -/
def retryAux (retryable : E → Bool) (op : Nat → Except E α) :
    Nat → Nat → Option E → RetryOutcome E α × Nat
  | 0, calls, last =>
      ((match last with
        | some e => .raised e
        | none => .raisedNone), calls)
  | n + 1, calls, _last =>
      match op calls with
      | .ok v => (.ok v, calls + 1)
      | .error e =>
          if retryable e then retryAux retryable op n (calls + 1) (some e)
          else (.raised e, calls + 1)

/-- The `retry` decorator applied to an operation: run up to `max_attempts`
attempts. -/
def retry (retryable : E → Bool) (max_attempts : Nat)
    (op : Nat → Except E α) : RetryOutcome E α × Nat :=
  retryAux retryable op max_attempts 0 none

/-! ## Fallback (src/code/core/fallback.py) -/

/-- Caller-visible outcome of `ChainedFallback.execute`: a value, the
re-raised last strategy failure, or the generic
`Exception("All fallback strategies failed")` reached only with an empty
strategy list. -/
inductive ChainResult (E α : Type)
  | ok (a : α)
  | raised (e : E)
  | raisedGeneric
deriving DecidableEq

/-- Loop of `ChainedFallback.execute` (source lines 55-70): each strategy is
modelled by the outcome of its `execute` at the given arguments; the second
argument is the running `last_exception`. -/
def chainedExecuteAux : List (Except E α) → Option E → ChainResult E α
  | [], last =>
      match last with
      | some e => .raised e
      | none => .raisedGeneric
  | s :: rest, last =>
      match s with
      | .ok v => .ok v
      | .error e =>
          let _ := last
          chainedExecuteAux rest (some e)

/-- `ChainedFallback.execute` with `last_exception` initially `None`. -/
def chained_execute (strategies : List (Except E α)) : ChainResult E α :=
  chainedExecuteAux strategies none

/-! ## Transaction coordinator (src/code/core/transaction_coordinator.py) -/

/-- Outcome of one participant method invocation: a returned boolean or a
raised exception. -/
inductive PResult
  | ret (b : Bool)
  | exc
deriving DecidableEq

/-- A registered participant, modelled by the outcomes its `prepare`,
`commit` and `abort` methods produce when invoked for this transaction. -/
structure Participant where
  prepareR : PResult
  commitR : PResult
  abortR : PResult
deriving DecidableEq

/-- `TransactionStatus` of the source. -/
inductive TransactionStatus
  | created
  | prepared
  | committed
  | aborted
deriving DecidableEq

/-- One transaction of the registry: its status and its ordered participant
list.  Timestamps are irrelevant to every claim and omitted. -/
structure Transaction where
  status : TransactionStatus
  participants : List Participant
deriving DecidableEq

/-- Observable participant invocations, by position in the registration
order. -/
inductive TxEvent
  | prepareCall (i : Nat)
  | commitCall (i : Nat)
  | abortCall (i : Nat)
deriving DecidableEq

/-- Outcome of a coordinator method that can raise: a returned boolean or a
propagated participant exception. -/
inductive TxOutcome
  | ret (b : Bool)
  | exc
deriving DecidableEq

/-- The un-protected abort loop `for p in participants: p.abort(id)` used
inside `prepare_transaction` (source lines 89-90 and 98-99): a raising abort
stops the loop and propagates.  Returns whether the loop completed and the
abort calls made (the raising call included). -/
def abortSeq : Nat → List Participant → Bool × List TxEvent
  | _, [] => (true, [])
  | i, p :: rest =>
      match p.abortR with
      | .ret _ =>
          let (done, evs) := abortSeq (i + 1) rest
          (done, .abortCall i :: evs)
      | .exc => (false, [.abortCall i])

/-- The participant loop of `prepare_transaction` (source lines 85-102).
`all` is the full participant list (aborted on failure), the `Nat` the
position of the head of the remaining list.  A `prepare` that returns false
runs the abort loop inside the `try`, so a raising abort is caught by the
`except` which runs the abort loop a second time; a raise in the `except`
body propagates.  A `prepare` that raises runs the abort loop once in the
`except` body, where a raising abort propagates.  Returns the outcome, the
status the transaction ends with (starting from `CREATED`), and the trace
of participant calls. -/
def prepSeq (all : List Participant) :
    Nat → List Participant → TxOutcome × TransactionStatus × List TxEvent
  | _, [] => (.ret true, .prepared, [])
  | i, p :: rest =>
      match p.prepareR with
      | .ret true =>
          let (o, st, evs) := prepSeq all (i + 1) rest
          (o, st, .prepareCall i :: evs)
      | .ret false =>
          let (done1, evs1) := abortSeq 0 all
          if done1 then (.ret false, .aborted, .prepareCall i :: evs1)
          else
            let (done2, evs2) := abortSeq 0 all
            if done2 then
              (.ret false, .aborted, .prepareCall i :: (evs1 ++ evs2))
            else (.exc, .created, .prepareCall i :: (evs1 ++ evs2))
      | .exc =>
          let (done1, evs1) := abortSeq 0 all
          if done1 then (.ret false, .aborted, .prepareCall i :: evs1)
          else (.exc, .created, .prepareCall i :: evs1)

/-- `prepare_transaction` on a transaction known to the registry (source
lines 70-106). -/
def prepare_transaction (t : Transaction) :
    TxOutcome × Transaction × List TxEvent :=
  if t.status ≠ .created then (.ret false, t, [])
  else
    let (o, st, evs) := prepSeq t.participants 0 t.participants
    (o, { t with status := st }, evs)

/-- The participant loop of `commit_transaction` (source lines 122-131): a
false return or a raise stops the loop and makes the method return false
with the status unchanged. -/
def commitSeq : Nat → List Participant → Bool × List TxEvent
  | _, [] => (true, [])
  | i, p :: rest =>
      match p.commitR with
      | .ret true =>
          let (b, evs) := commitSeq (i + 1) rest
          (b, .commitCall i :: evs)
      | .ret false => (false, [.commitCall i])
      | .exc => (false, [.commitCall i])

/-- `commit_transaction` on a transaction known to the registry (source
lines 108-135). -/
def commit_transaction (t : Transaction) :
    Bool × Transaction × List TxEvent :=
  if t.status ≠ .prepared then (false, t, [])
  else
    let (b, evs) := commitSeq 0 t.participants
    if b then (true, { t with status := .committed }, evs)
    else (false, t, evs)

/-- The abort loop of `abort_transaction` (source lines 147-152): every
participant receives `abort`, per-participant exceptions are swallowed. -/
def abortSwallowSeq : Nat → List Participant → List TxEvent
  | _, [] => []
  | i, _p :: rest => .abortCall i :: abortSwallowSeq (i + 1) rest

/-- `abort_transaction` on a transaction known to the registry (source
lines 137-156): aborts every participant regardless of outcome, then marks
the transaction Aborted and returns true, with no status precondition. -/
def abort_transaction (t : Transaction) :
    Bool × Transaction × List TxEvent :=
  (true, { t with status := .aborted }, abortSwallowSeq 0 t.participants)

/-- `register_participant` restricted to a transaction known to the
registry (source line 67): append and return true. -/
def registerPart (t : Transaction) (p : Participant) : Bool × Transaction :=
  (true, { t with participants := t.participants ++ [p] })

/-- `execute_transaction` (source lines 169-176): prepare then, if it
returned true, commit; a raise from prepare propagates. -/
def execute_transaction (t : Transaction) :
    TxOutcome × Transaction × List TxEvent :=
  match prepare_transaction t with
  | (.exc, t1, evs1) => (.exc, t1, evs1)
  | (.ret false, t1, evs1) => (.ret false, t1, evs1)
  | (.ret true, t1, evs1) =>
      let (b, t2, evs2) := commit_transaction t1
      (.ret b, t2, evs1 ++ evs2)

/-- The coordinator operations that can touch an existing transaction. -/
inductive CoordOp
  | registerOp (p : Participant)
  | prepareOp
  | commitOp
  | abortOp
  | executeOp
deriving DecidableEq

/-- Effect of one coordinator operation on one transaction of the
registry. -/
def applyOp (t : Transaction) : CoordOp → Transaction
  | .registerOp p => (registerPart t p).2
  | .prepareOp => (prepare_transaction t).2.1
  | .commitOp => (commit_transaction t).2.1
  | .abortOp => (abort_transaction t).2.1
  | .executeOp => (execute_transaction t).2.1

/-- The transaction registry `self.transactions`, modelled as an
association list with unique keys. -/
abbrev TxRegistry := List (String × Transaction)

/-- Dictionary lookup `self.transactions[transaction_id]`. -/
def lookupTx : TxRegistry → String → Option Transaction
  | [], _ => none
  | (k, t) :: rest, id => if k = id then some t else lookupTx rest id

/-- In-place update of the transaction stored under a key. -/
def updateTx : TxRegistry → String → Transaction → TxRegistry
  | [], _, _ => []
  | (k, t) :: rest, id, t1 =>
      if k = id then (k, t1) :: rest else (k, t) :: updateTx rest id t1

/-- `register_participant` at registry level (source lines 58-68): false
for an unknown transaction id, otherwise append the participant to the
stored transaction with no check of its status. -/
def register_participant (r : TxRegistry) (id : String) (p : Participant) :
    Bool × TxRegistry :=
  match lookupTx r id with
  | none => (false, r)
  | some t =>
      (true, updateTx r id { t with participants := t.participants ++ [p] })

/-! ## Saga orchestrator (src/code/core/saga_orchestrator.py)

JSON payloads and response bodies are an arbitrary type `D`; `requests`
calls are an environment: `resolve` models `get_service_url` and `post`
models `requests.post` followed by `.json()` on the response, returning the
status code and the body, or raising.  `now` is the value `time.time()`
returns. -/

/-- `SagaState` of the source. -/
inductive SagaState
  | started
  | executing
  | compensating
  | completed
  | failed
deriving DecidableEq

/-- `StepState` of the source. -/
inductive StepState
  | pending
  | executing
  | executed
  | compensating
  | compensated
  | failed
deriving DecidableEq

/-- `SagaStep` of the source. -/
structure SagaStep (D : Type) where
  id : String
  service_name : String
  action_endpoint : String
  compensation_endpoint : String
  state : StepState
  payload : D
  result : Option D
deriving DecidableEq

/-- `Saga` of the source. -/
structure Saga (D : Type) where
  id : String
  name : String
  state : SagaState
  steps : List (SagaStep D)
  current_step_index : Nat
  created_at : Int
  updated_at : Int
deriving DecidableEq

/-- Request bodies sent by the orchestrator: the step payload for actions,
`{"step_id": ..., "original_payload": ...}` for compensations. -/
inductive ReqBody (D : Type)
  | action (payload : D)
  | comp (step_id : String) (original_payload : D)
deriving DecidableEq

/-- The remote world the orchestrator talks to. -/
structure SagaEnv (D : Type) where
  resolve : String → Option String
  post : String → ReqBody D → Except Unit (Nat × D)
  now : Int

/-- Observable HTTP posts made by the orchestrator. -/
inductive SagaEvent (D : Type)
  | actionPost (url : String) (payload : D)
  | compPost (url : String) (step_id : String) (original_payload : D)
deriving DecidableEq

/-- Replace the step at an index. -/
def setStep (s : Saga D) (i : Nat) (st : SagaStep D) : Saga D :=
  { s with steps := s.steps.set i st }

/-- The loop of `compensate_saga` (source lines 184-210),
`for i in range(saga.current_step_index - 1, -1, -1)`: the first argument
`k + 1` means indices `k, k - 1, ..., 0` remain to process.  Only steps in
state Executed are touched; an unresolved address marks the step Failed and
continues (the `continue` skips the `updated_at` write); a non-200 response
or a raise marks it Failed; a 200 response marks it Compensated; the walk
never aborts early. -/
def comp_loop (env : SagaEnv D) : Nat → Saga D → Saga D × List (SagaEvent D)
  | 0, s => (s, [])
  | k + 1, s =>
      match s.steps[k]? with
      | none => comp_loop env k s
      | some step =>
          if step.state = .executed then
            let sC := setStep s k { step with state := .compensating }
            match env.resolve step.service_name with
            | none =>
                comp_loop env k (setStep sC k { step with state := .failed })
            | some url =>
                let fullUrl := url ++ step.compensation_endpoint
                match env.post fullUrl (.comp step.id step.payload) with
                | .ok (code, _body) =>
                    let st : StepState :=
                      if code = 200 then .compensated else .failed
                    let sR := { setStep sC k { step with state := st } with
                                updated_at := env.now }
                    let (s2, evs) := comp_loop env k sR
                    (s2, .compPost fullUrl step.id step.payload :: evs)
                | .error _ =>
                    let sF := { setStep sC k { step with state := .failed } with
                                updated_at := env.now }
                    let (s2, evs) := comp_loop env k sF
                    (s2, .compPost fullUrl step.id step.payload :: evs)
          else comp_loop env k s

/-- `compensate_saga` (source lines 177-213): set state Compensating, walk
the executed prefix in reverse, then set state Failed regardless of the
individual outcomes. -/
def compensate_saga (env : SagaEnv D) (s : Saga D) :
    Saga D × List (SagaEvent D) :=
  let (s1, evs) :=
    comp_loop env s.current_step_index { s with state := .compensating }
  ({ s1 with state := .failed, updated_at := env.now }, evs)

/-- The `while saga.current_step_index < len(saga.steps)` loop of
`execute_saga` (source lines 139-174), with explicit fuel; one unit of fuel
is consumed per iteration, so any fuel above `steps.length -
current_step_index` is equivalent to the source loop. -/
def exec_loop (env : SagaEnv D) : Nat → Saga D → Saga D × List (SagaEvent D)
  | 0, s => (s, [])
  | fuel + 1, s =>
      if h : s.current_step_index < s.steps.length then
        let i := s.current_step_index
        let step := { s.steps.get ⟨i, h⟩ with state := .executing }
        let sE := setStep s i step
        match env.resolve step.service_name with
        | none => compensate_saga env (setStep sE i { step with state := .failed })
        | some url =>
            let fullUrl := url ++ step.action_endpoint
            match env.post fullUrl (.action step.payload) with
            | .error _ =>
                let (s2, evs) :=
                  compensate_saga env (setStep sE i { step with state := .failed })
                (s2, .actionPost fullUrl step.payload :: evs)
            | .ok (code, body) =>
                if code = 200 then
                  let sOk :=
                    { setStep sE i
                        { step with state := .executed, result := some body } with
                      current_step_index := i + 1, updated_at := env.now }
                  let (s2, evs) := exec_loop env fuel sOk
                  (s2, .actionPost fullUrl step.payload :: evs)
                else
                  let (s2, evs) :=
                    compensate_saga env (setStep sE i { step with state := .failed })
                  (s2, .actionPost fullUrl step.payload :: evs)
      else ({ s with state := .completed, updated_at := env.now }, [])

/-- `execute_saga` (source lines 132-174): mark the saga Executing and run
the step loop to completion or first failure. -/
def execute_saga (env : SagaEnv D) (s : Saga D) :
    Saga D × List (SagaEvent D) :=
  exec_loop env (s.steps.length - s.current_step_index + 1)
    { s with state := .executing }

/-- State of the step stored at an index, when the index is in range. -/
def stepStateAt (s : Saga D) (i : Nat) : Option StepState :=
  (s.steps[i]?).map SagaStep.state

/-- The `(step_id, original_payload)` pairs the compensation walk posts,
read off the saga before compensation: indices `k - 1, ..., 0`, keeping the
steps in state Executed. -/
def compPairsBelow (s : Saga D) : Nat → List (String × D)
  | 0 => []
  | k + 1 =>
      match s.steps[k]? with
      | none => compPairsBelow s k
      | some st =>
          if st.state = .executed then (st.id, st.payload) :: compPairsBelow s k
          else compPairsBelow s k

/-- Project a saga event to its compensation content, `none` for action
posts. -/
def compProj : SagaEvent D → Option (String × D)
  | .compPost _ sid pl => some (sid, pl)
  | .actionPost _ _ => none

/-- Decidable form of: every Executed step below index `k` has a resolvable
service name. -/
def resolvesBelow (env : SagaEnv D) (s : Saga D) (k : Nat) : Bool :=
  (List.range k).all fun i =>
    match s.steps[i]? with
    | none => true
    | some st =>
        if st.state = .executed then (env.resolve st.service_name).isSome
        else true

/-! ## Further helper definitions used by the theorems -/

/-- `n` prepare-call events at positions `i, i + 1, ...`. -/
def prepCallsFrom (i : Nat) : Nat → List TxEvent
  | 0 => []
  | n + 1 => .prepareCall i :: prepCallsFrom (i + 1) n

/-- `n` abort-call events at positions `i, i + 1, ...`. -/
def abortCallsFrom (i : Nat) : Nat → List TxEvent
  | 0 => []
  | n + 1 => .abortCall i :: abortCallsFrom (i + 1) n

/-- Decidable form of: every participant of the list votes yes in the
prepare phase. -/
def allPrepTrue (ps : List Participant) : Bool :=
  ps.all fun p => decide (p.prepareR = .ret true)

/-- Invariant of a breaker that has seen `n` consecutive failing calls from
a fresh Closed state: configuration unchanged and no fallback, and the
breaker is still Closed counting the failures, or already Open. -/
def brInv (thr : Nat) (timeout : Int) (n : Nat) (b : CircuitBreaker α) : Prop :=
  b.failure_threshold = thr ∧ b.recovery_timeout = timeout ∧
    b.fallback_function = none ∧
    ((b.state = .closed ∧ b.failure_count = n ∧ n < thr) ∨ b.state = .opened)

/-- Closed breaker with one recorded failure, reachable from a fresh
breaker with threshold 5 by a single failing call. -/
def cbC1 : CircuitBreaker Nat := ⟨5, 30, none, .closed, 1, 0⟩

/-- A transaction whose single participant raises from `prepare` and raises
from `abort`. -/
def txC5 : Transaction := ⟨.created, [⟨.exc, .ret true, .exc⟩]⟩

/-- A one-step saga about to execute. -/
def sagaCex : Saga Nat :=
  ⟨"sg", "sg", .started, [⟨"st0", "svc", "/act", "/comp", .pending, 7, none⟩],
    0, 0, 0⟩

/-- An environment whose action endpoint answers with HTTP 201 and a JSON
body. -/
def envCex : SagaEnv Nat :=
  ⟨fun _ => some "http://x", fun _ _ => .ok (201, 99), 5⟩

/-- A three-step saga in which step 2 (index 1) just failed: step 1
executed, cursor still at index 1, step 3 pending. -/
def sagaC7 : Saga Nat :=
  ⟨"sg7", "sg7", .executing,
    [⟨"sg7-step-0", "svcA", "/a0", "/c0", .executed, 10, some 11⟩,
     ⟨"sg7-step-1", "svcB", "/a1", "/c1", .failed, 20, none⟩,
     ⟨"sg7-step-2", "svcC", "/a2", "/c2", .pending, 30, none⟩],
    1, 0, 0⟩

/-- An environment whose compensation endpoint fails with HTTP 500: the
walk must continue and the saga still end Failed. -/
def envC7 : SagaEnv Nat :=
  ⟨fun _ => some "http://y", fun _ _ => .ok (500, 0), 9⟩

/-- An environment whose action endpoint answers with HTTP 200 and a JSON
body. -/
def envOkC3 : SagaEnv Nat :=
  ⟨fun _ => some "http://x", fun _ _ => .ok (200, 55), 5⟩

/-- The quiescent per-step invariant a saga satisfies once `execute_saga`
has returned: either it completed with every step Executed and the cursor
one past the last step, or it failed with the step at the cursor Failed —
not Pending — every step before the cursor Compensated or Failed by the
compensation walk, and every step after the cursor still Pending. -/
def finalInv (r : Saga D) : Prop :=
  (r.state = .completed ∧ r.current_step_index = r.steps.length
    ∧ ∀ (i : Nat) (st : SagaStep D), r.steps[i]? = some st →
        st.state = .executed)
  ∨ (r.state = .failed ∧ r.current_step_index < r.steps.length
    ∧ stepStateAt r r.current_step_index = some .failed
    ∧ (∀ (i : Nat) (st : SagaStep D), i < r.current_step_index →
        r.steps[i]? = some st → st.state = .compensated ∨ st.state = .failed)
    ∧ (∀ (i : Nat) (st : SagaStep D), r.current_step_index < i →
        r.steps[i]? = some st → st.state = .pending))

/-! ## Claim C9: chained fallback -/

/-- Claim C9: `ChainedFallback` over strategies `[A, B]`: if A raises and B
succeeds, `execute` returns the value of B; if both raise, `execute`
re-raises the exception of B, the last encountered failure, never silently
returning nothing. -/
theorem C9_chained_fallback (E α : Type) (ea eb : E) (v : α) :
    chained_execute [Except.error ea, Except.ok v] = ChainResult.ok v
    ∧ @chained_execute E α [Except.error ea, Except.error eb] =
        ChainResult.raised eb :=
  ⟨rfl, rfl⟩

/-! ## Claim C8: retry attempt counts -/

/-- Claim C8: with `max_attempts = 3`, an operation that always fails with
a retryable error is invoked exactly 3 times and the last error is raised;
an operation that fails retryably twice and then succeeds is invoked
exactly 3 times and the success value is returned. -/
theorem C8_retry_counts (E α : Type) (retryable : E → Bool)
    (op op2 : Nat → Except E α)
    (hfail : ∀ n, ∃ e, op n = .error e ∧ retryable e = true)
    (f0 f1 : E) (v : α)
    (h0 : op2 0 = .error f0) (hr0 : retryable f0 = true)
    (h1 : op2 1 = .error f1) (hr1 : retryable f1 = true)
    (h2 : op2 2 = .ok v) :
    (∃ e2, op 2 = .error e2 ∧ retry retryable 3 op = (.raised e2, 3))
    ∧ retry retryable 3 op2 = (.ok v, 3) := by
  constructor
  · obtain ⟨e0, he0, hre0⟩ := hfail 0
    obtain ⟨e1, he1, hre1⟩ := hfail 1
    obtain ⟨e2, he2, hre2⟩ := hfail 2
    exact ⟨e2, he2, by simp [retry, retryAux, he0, hre0, he1, hre1, he2, hre2]⟩
  · simp [retry, retryAux, h0, hr0, h1, hr1, h2]

/-- Witness for C8 at a concrete retryable error and operation pair. -/
theorem C8_witness :
    (∃ e2, (fun _ => (Except.error 7 : Except Nat Nat)) 2 = .error e2
        ∧ retry (fun _ => true) 3 (fun _ => (.error 7 : Except Nat Nat)) =
            (.raised e2, 3))
    ∧ retry (fun _ => true) 3
        (fun n => if n < 2 then (.error 7 : Except Nat Nat) else .ok 9) =
          (.ok 9, 3) :=
  C8_retry_counts Nat Nat (fun _ => true) (fun _ => .error 7)
    (fun n => if n < 2 then .error 7 else .ok 9)
    (fun _ => ⟨7, rfl, rfl⟩) 7 7 9 rfl rfl rfl rfl rfl

/-! ## Claim C1: circuit breaker Closed-state success -/

/-- Claim C1 counterexample: a Closed breaker with `failure_count = 1`
(reachable from a fresh breaker with threshold 5 by one failing call).  A
successful call returns the result of the operation but does NOT reset
`failure_count` to 0, contrary to the claim: only a HalfOpen success or an
explicit `reset()` clears the count. -/
theorem C1_counterexample :
    cbC1.state = CircuitState.closed ∧ 0 < cbC1.failure_count
    ∧ (cbC1.call 0 (.ok 42)).result = .value 42
    ∧ ¬ (cbC1.call 0 (.ok 42)).breaker.failure_count = 0
    ∧ (cbC1.call 0 (.ok 42)).breaker.failure_count = 1 := by
  decide

/-- Claim C1 amended: for a breaker in Closed state with
`failure_count > 0`, a call whose wrapped operation succeeds returns the
result of the operation, invokes the operation, and leaves the breaker
(state and `failure_count` included) completely unchanged; the count is not
reset. -/
theorem C1_closed_success_not_reset (α : Type) (b : CircuitBreaker α)
    (t : Int) (v : α) (hs : b.state = .closed) (_hc : 0 < b.failure_count) :
    b.call t (.ok v) = ⟨.value v, true, b⟩ := by
  simp [CircuitBreaker.call, CircuitBreaker.execPart, hs]

/-- Witness for C1 at the concrete breaker of the counterexample. -/
theorem C1_witness : cbC1.call 0 (.ok 42) = ⟨.value 42, true, cbC1⟩ :=
  C1_closed_success_not_reset Nat cbC1 0 42 rfl (by decide)

/-! ## Claim C2: terminal transaction statuses -/

/-- Every coordinator operation maps an Aborted transaction to an Aborted
transaction. -/
lemma applyOp_aborted (t : Transaction) (op : CoordOp)
    (h : t.status = .aborted) : (applyOp t op).status = .aborted := by
  cases op <;>
    simp [applyOp, registerPart, prepare_transaction, commit_transaction,
      abort_transaction, execute_transaction, h]

/-- A Committed transaction keeps its status under every coordinator
operation except `abort_transaction`, which moves it to Aborted. -/
lemma applyOp_committed (t : Transaction) (op : CoordOp)
    (h : t.status = .committed) :
    (applyOp t op).status =
      if op = .abortOp then .aborted else .committed := by
  cases op <;>
    simp [applyOp, registerPart, prepare_transaction, commit_transaction,
      abort_transaction, execute_transaction, h]

/-- Claim C2 counterexample: a transaction driven (from the Created state a
fresh transaction starts in) through `prepare_transaction` and
`commit_transaction` reaches Committed, and a subsequent
`abort_transaction` — which checks no status precondition — moves it to
Aborted: a Committed transaction does not stay Committed. -/
theorem C2_counterexample :
    (applyOp (applyOp (⟨.created, []⟩ : Transaction) .prepareOp)
        .commitOp).status = .committed
    ∧ (applyOp (applyOp (applyOp (⟨.created, []⟩ : Transaction) .prepareOp)
        .commitOp) .abortOp).status = .aborted := by
  decide

/-- Claim C2 amended: Aborted is terminal under every sequence of
coordinator operations; Committed is preserved by every single operation
except `abort_transaction`, which is the one operation that moves a
Committed transaction, namely to Aborted. -/
theorem C2_terminal_statuses :
    (∀ (t : Transaction) (ops : List CoordOp), t.status = .aborted →
        (ops.foldl applyOp t).status = .aborted)
    ∧ (∀ (t : Transaction) (op : CoordOp), t.status = .committed →
        (applyOp t op).status =
          if op = .abortOp then .aborted else .committed) := by
  constructor
  · intro t ops h
    induction ops generalizing t with
    | nil => exact h
    | cons o os ih => exact ih (applyOp t o) (applyOp_aborted t o h)
  · exact applyOp_committed

/-- Witness for C2 at concrete transactions and operations. -/
theorem C2_witness :
    (([CoordOp.prepareOp, .commitOp, .executeOp].foldl applyOp
        (⟨.aborted, []⟩ : Transaction)).status = .aborted)
    ∧ (applyOp (⟨.committed, []⟩ : Transaction) .abortOp).status = .aborted
    ∧ (applyOp (⟨.committed, []⟩ : Transaction) .prepareOp).status =
        .committed :=
  ⟨C2_terminal_statuses.1 ⟨.aborted, []⟩ [.prepareOp, .commitOp, .executeOp]
      rfl,
    C2_terminal_statuses.2 ⟨.committed, []⟩ .abortOp rfl,
    C2_terminal_statuses.2 ⟨.committed, []⟩ .prepareOp rfl⟩

/-! ## Claim C5: prepare failure aborts all participants -/

/-- When no abort of the list raises, the unprotected abort loop completes
and calls abort on every listed participant in order. -/
lemma abortSeq_no_raise (ps : List Participant)
    (h : ∀ p ∈ ps, p.abortR ≠ .exc) (i : Nat) :
    abortSeq i ps = (true, abortCallsFrom i ps.length) := by
  induction ps generalizing i with
  | nil => rfl
  | cons p rest ih =>
      have hp : p.abortR ≠ .exc := h p (List.mem_cons_self p rest)
      have hr : ∀ q ∈ rest, q.abortR ≠ .exc := fun q hq =>
        h q (List.mem_cons_of_mem p hq)
      cases hab : p.abortR with
      | ret b => simp [abortSeq, hab, ih hr, abortCallsFrom]
      | exc => exact absurd hab hp

/-- Every position below `i + n` and at least `i` occurs in
`abortCallsFrom i n`. -/
lemma abortCallsFrom_mem (n : Nat) :
    ∀ i j, i ≤ j → j < i + n → TxEvent.abortCall j ∈ abortCallsFrom i n := by
  induction n with
  | zero => intro i j h1 h2; omega
  | succ m ih =>
      intro i j h1 h2
      rcases Nat.eq_or_lt_of_le h1 with rfl | hlt
      · exact List.mem_cons_self _ _
      · exact List.mem_cons_of_mem _ (ih (i + 1) j hlt (by omega))

/-- The prepare loop when every participant votes yes: returns true, status
Prepared, and the trace is exactly the prepare calls in registration
order. -/
lemma prepSeq_all_true (all : List Participant) (ps : List Participant)
    (h : ∀ p ∈ ps, p.prepareR = .ret true) (i : Nat) :
    prepSeq all i ps = (.ret true, .prepared, prepCallsFrom i ps.length) := by
  induction ps generalizing i with
  | nil => rfl
  | cons p rest ih =>
      have hp := h p (List.mem_cons_self p rest)
      have hr : ∀ q ∈ rest, q.prepareR = .ret true := fun q hq =>
        h q (List.mem_cons_of_mem p hq)
      simp [prepSeq, hp, ih hr, prepCallsFrom]

/-- The prepare loop when some remaining participant does not vote yes and
no abort raises: returns false, status Aborted, and every participant of
the full list receives an abort call. -/
lemma prepSeq_fail (all : List Participant)
    (hab : ∀ p ∈ all, p.abortR ≠ .exc) (ps : List Participant)
    (hex : ¬ ∀ p ∈ ps, p.prepareR = .ret true) (i : Nat) :
    ∃ evs, prepSeq all i ps = (.ret false, .aborted, evs)
      ∧ ∀ j, j < all.length → TxEvent.abortCall j ∈ evs := by
  induction ps generalizing i with
  | nil => exact absurd (by intro p hp; cases hp) hex
  | cons p rest ih =>
      cases hp : p.prepareR with
      | ret b =>
          cases b with
          | true =>
              have hex1 : ¬ ∀ q ∈ rest, q.prepareR = .ret true := by
                intro hall
                exact hex (by
                  intro q hq
                  rcases List.mem_cons.mp hq with rfl | hq1
                  · exact hp
                  · exact hall q hq1)
              obtain ⟨evs, heq, hmem⟩ := ih hex1 (i + 1)
              exact ⟨.prepareCall i :: evs, by simp [prepSeq, hp, heq],
                fun j hj => List.mem_cons_of_mem _ (hmem j hj)⟩
          | false =>
              refine ⟨.prepareCall i :: abortCallsFrom 0 all.length,
                ?_, fun j hj => List.mem_cons_of_mem _
                  (abortCallsFrom_mem all.length 0 j (Nat.zero_le j)
                    (by omega))⟩
              simp [prepSeq, hp, abortSeq_no_raise all hab 0]
      | exc =>
          refine ⟨.prepareCall i :: abortCallsFrom 0 all.length,
            ?_, fun j hj => List.mem_cons_of_mem _
              (abortCallsFrom_mem all.length 0 j (Nat.zero_le j)
                (by omega))⟩
          simp [prepSeq, hp, abortSeq_no_raise all hab 0]

/-- Claim C5 counterexample: a Created transaction with one participant
whose `prepare` raises and whose `abort` also raises.  The abort call made
inside the `except` handler of `prepare_transaction` is not protected, so
the exception propagates: the method does not return false and the status
stays Created instead of becoming Aborted. -/
theorem C5_counterexample :
    txC5.status = .created
    ∧ (prepare_transaction txC5).1 = .exc
    ∧ (prepare_transaction txC5).2.1.status = .created := by
  decide

/-- Claim C5 amended: on a Created transaction whose participant aborts do
not raise, if every prepare returns true the transaction becomes Prepared
and the method returns true with exactly the prepare calls as trace; if
some prepare returns false or raises, the method returns false, the status
becomes Aborted, and every registered participant — the ones not yet
prepared and the failing one included — receives an abort call. -/
theorem C5_prepare_aborts_all (t : Transaction)
    (hst : t.status = .created)
    (hab : ∀ p ∈ t.participants, p.abortR ≠ .exc) :
    (allPrepTrue t.participants = true →
        prepare_transaction t =
          (.ret true, { t with status := .prepared },
            prepCallsFrom 0 t.participants.length))
    ∧ (allPrepTrue t.participants = false →
        (prepare_transaction t).1 = .ret false
        ∧ (prepare_transaction t).2.1.status = .aborted
        ∧ ∀ j, j < t.participants.length →
            TxEvent.abortCall j ∈ (prepare_transaction t).2.2) := by
  constructor
  · intro hall
    have h : ∀ p ∈ t.participants, p.prepareR = .ret true := by
      intro p hp
      exact of_decide_eq_true (List.all_eq_true.mp hall p hp)
    simp [prepare_transaction, hst,
      prepSeq_all_true t.participants t.participants h 0]
  · intro hall
    have hex : ¬ ∀ p ∈ t.participants, p.prepareR = .ret true := by
      intro hcontra
      have : allPrepTrue t.participants = true :=
        List.all_eq_true.mpr fun p hp => decide_eq_true (hcontra p hp)
      rw [this] at hall
      cases hall
    obtain ⟨evs, heq, hmem⟩ :=
      prepSeq_fail t.participants hab t.participants hex 0
    refine ⟨?_, ?_, ?_⟩
    · simp [prepare_transaction, hst, heq]
    · simp [prepare_transaction, hst, heq]
    · simpa [prepare_transaction, hst, heq] using hmem

/-- Witness for C5: a Created transaction with two participants, the
second of which votes no; both receive abort, the transaction is Aborted
and the call returns false.  A second transaction where both vote yes
becomes Prepared. -/
theorem C5_witness :
    ((prepare_transaction
        ⟨.created, [⟨.ret true, .ret true, .ret true⟩,
          ⟨.ret false, .ret true, .ret true⟩]⟩).1 = .ret false
      ∧ (prepare_transaction
        ⟨.created, [⟨.ret true, .ret true, .ret true⟩,
          ⟨.ret false, .ret true, .ret true⟩]⟩).2.1.status = .aborted
      ∧ ∀ j, j < (List.length [(⟨.ret true, .ret true, .ret true⟩ : Participant),
          ⟨.ret false, .ret true, .ret true⟩]) →
          TxEvent.abortCall j ∈ (prepare_transaction
            ⟨.created, [⟨.ret true, .ret true, .ret true⟩,
              ⟨.ret false, .ret true, .ret true⟩]⟩).2.2)
    ∧ prepare_transaction
        ⟨.created, [⟨.ret true, .ret true, .ret true⟩]⟩ =
          (.ret true, ⟨.prepared, [⟨.ret true, .ret true, .ret true⟩]⟩,
            prepCallsFrom 0 1) :=
  ⟨(C5_prepare_aborts_all
      ⟨.created, [⟨.ret true, .ret true, .ret true⟩,
        ⟨.ret false, .ret true, .ret true⟩]⟩ rfl (by decide)).2 (by decide),
    (C5_prepare_aborts_all
      ⟨.created, [⟨.ret true, .ret true, .ret true⟩]⟩ rfl (by decide)).1
      (by decide)⟩

/-! ## Claim C6: breaker opens after threshold failures -/

/-- One failing call preserves the breaker invariant, counting one more
failure. -/
lemma brInv_step (thr : Nat) (timeout : Int) (n : Nat)
    (b : CircuitBreaker α) (t : Int) (h : brInv thr timeout n b) :
    brInv thr timeout (n + 1) ((b.call t .exc).breaker) := by
  obtain ⟨hft, hrt, hfb, hcase⟩ := h
  rcases hcase with ⟨hst, hfc, hlt⟩ | hst
  · by_cases hth : thr ≤ n + 1
    · refine ⟨?_, ?_, ?_, Or.inr ?_⟩ <;>
        simp [CircuitBreaker.call, CircuitBreaker.execPart, hst, hfb, hft,
          hrt, hth, hfc]
    · refine ⟨?_, ?_, ?_, Or.inl ⟨?_, ?_, by omega⟩⟩ <;>
        simp [CircuitBreaker.call, CircuitBreaker.execPart, hst, hfb, hft,
          hrt, hth, hfc]
  · by_cases hto : timeout < t - b.last_failure_time
    · refine ⟨?_, ?_, ?_, Or.inr ?_⟩ <;>
        simp [CircuitBreaker.call, CircuitBreaker.execPart, hst, hfb, hft,
          hrt, hto]
    · refine ⟨?_, ?_, ?_, Or.inr ?_⟩ <;>
        simp [CircuitBreaker.call, CircuitBreaker.execPart, hst, hfb, hft,
          hrt, hto]

/-- The invariant after a whole sequence of failing calls. -/
lemma brInv_failCalls (thr : Nat) (timeout : Int) (ts : List Int) :
    ∀ (b : CircuitBreaker α) (n : Nat), brInv thr timeout n b →
      brInv thr timeout (n + ts.length) (failCalls b ts) := by
  induction ts with
  | nil => intro b n h; exact h
  | cons t rest ih =>
      intro b n h
      have h1 := brInv_step thr timeout n b t h
      have h2 := ih ((b.call t .exc).breaker) (n + 1) h1
      simpa [failCalls, Nat.add_assoc, Nat.add_comm 1 rest.length] using h2

/-- Claim C6: starting from a fresh Closed breaker with no fallback and
threshold at least 1, after any sequence of at least `failure_threshold`
calls whose wrapped operation fails the breaker is Open, and a further call
made while the recovery timeout has not yet elapsed since the last recorded
failure raises the circuit-open error without invoking the operation and
without touching the breaker. -/
theorem C6_open_after_threshold (α : Type) (thr : Nat) (timeout : Int)
    (ts : List Int) (t : Int) (op : OpOutcome α)
    (h1 : 1 ≤ thr) (h2 : thr ≤ ts.length) :
    (failCalls (freshBreaker α thr timeout) ts).state = .opened
    ∧ (t - (failCalls (freshBreaker α thr timeout) ts).last_failure_time ≤
          timeout →
        (failCalls (freshBreaker α thr timeout) ts).call t op =
          ⟨.raisedBreaker, false, failCalls (freshBreaker α thr timeout) ts⟩) := by
  have hinv0 : brInv thr timeout 0 (freshBreaker α thr timeout) :=
    ⟨rfl, rfl, rfl, Or.inl ⟨rfl, rfl, h1⟩⟩
  have hinv := brInv_failCalls thr timeout ts (freshBreaker α thr timeout)
    0 hinv0
  obtain ⟨hft, hrt, hfb, hcase⟩ := hinv
  have hopen : (failCalls (freshBreaker α thr timeout) ts).state = .opened := by
    rcases hcase with ⟨_, _, hlt⟩ | hst
    · omega
    · exact hst
  refine ⟨hopen, fun hto => ?_⟩
  have hto1 : ¬ (t - (failCalls (freshBreaker α thr timeout) ts).last_failure_time >
      (failCalls (freshBreaker α thr timeout) ts).recovery_timeout) := by
    rw [hrt]; omega
  simp [CircuitBreaker.call, hopen, hfb, hto1]

/-- Witness for C6: threshold 2, two failing calls, then a call inside the
recovery window. -/
theorem C6_witness :
    (failCalls (freshBreaker Nat 2 30) [0, 1]).state = .opened
    ∧ (failCalls (freshBreaker Nat 2 30) [0, 1]).call 5 (.ok 3) =
        ⟨.raisedBreaker, false, failCalls (freshBreaker Nat 2 30) [0, 1]⟩ :=
  ⟨(C6_open_after_threshold Nat 2 30 [0, 1] 5 (.ok 3) (by decide)
      (by decide)).1,
    (C6_open_after_threshold Nat 2 30 [0, 1] 5 (.ok 3) (by decide)
      (by decide)).2 (by decide)⟩

/-! ## Claim C10: registration ignores transaction status -/

/-- Looking up a key after updating it returns the updated transaction. -/
lemma lookupTx_updateTx (r : TxRegistry) (id : String) (t t1 : Transaction)
    (h : lookupTx r id = some t) : lookupTx (updateTx r id t1) id = some t1 := by
  induction r with
  | nil => cases h
  | cons kv rest ih =>
      by_cases hk : kv.1 = id
      · simp [lookupTx, updateTx, hk]
      · simp [lookupTx, updateTx, hk] at h ⊢
        exact ih h

/-- Every position of the participant list receives an abort call in the
swallowing abort loop. -/
lemma abortSwallowSeq_mem (ps : List Participant) :
    ∀ i j, j < ps.length →
      TxEvent.abortCall (i + j) ∈ abortSwallowSeq i ps := by
  induction ps with
  | nil => intro i j h; simp at h
  | cons p rest ih =>
      intro i j h
      cases j with
      | zero => exact List.mem_cons_self _ _
      | succ m =>
          have := ih (i + 1) m (by simpa using h)
          exact List.mem_cons_of_mem _ (by
            have harr : i + 1 + m = i + (m + 1) := by omega
            rwa [harr] at this)

/-- Claim C10: `register_participant` returns true and appends for every
transaction id present in the registry, whatever the transaction status —
Prepared, Committed and Aborted included — and the late participant then
takes part in the subsequent abort iteration; it returns false, leaving the
registry unchanged, only for an unknown id. -/
theorem C10_register_any_status (r : TxRegistry) (id : String)
    (p : Participant) :
    (∀ t, lookupTx r id = some t →
        register_participant r id p =
          (true, updateTx r id { t with participants := t.participants ++ [p] })
        ∧ lookupTx (register_participant r id p).2 id =
            some { t with participants := t.participants ++ [p] }
        ∧ TxEvent.abortCall t.participants.length ∈
            (abort_transaction
              { t with participants := t.participants ++ [p] }).2.2)
    ∧ (lookupTx r id = none → register_participant r id p = (false, r)) := by
  constructor
  · intro t ht
    refine ⟨by simp [register_participant, ht], ?_, ?_⟩
    · simp only [register_participant, ht]
      exact lookupTx_updateTx r id t _ ht
    · simp only [abort_transaction]
      have := abortSwallowSeq_mem (t.participants ++ [p]) 0
        t.participants.length (by simp)
      simpa using this
  · intro ht
    simp [register_participant, ht]

/-- Witness for C10: a registry holding one Committed transaction with one
participant; a late registration appends and the appended participant is
aborted by a subsequent `abort_transaction`. -/
theorem C10_witness :
    (register_participant
        [("a", ⟨.committed, [⟨.ret true, .ret true, .ret true⟩]⟩)] "a"
        ⟨.ret false, .ret false, .ret false⟩ =
      (true, [("a", ⟨.committed, [⟨.ret true, .ret true, .ret true⟩,
        ⟨.ret false, .ret false, .ret false⟩]⟩)])
      ∧ lookupTx (register_participant
          [("a", ⟨.committed, [⟨.ret true, .ret true, .ret true⟩]⟩)] "a"
          ⟨.ret false, .ret false, .ret false⟩).2 "a" =
        some ⟨.committed, [⟨.ret true, .ret true, .ret true⟩,
          ⟨.ret false, .ret false, .ret false⟩]⟩
      ∧ TxEvent.abortCall 1 ∈
          (abort_transaction ⟨.committed, [⟨.ret true, .ret true, .ret true⟩,
            ⟨.ret false, .ret false, .ret false⟩]⟩).2.2)
    ∧ (register_participant ([] : TxRegistry) "b"
        ⟨.ret true, .ret true, .ret true⟩ = (false, [])) :=
  ⟨(C10_register_any_status
      [("a", ⟨.committed, [⟨.ret true, .ret true, .ret true⟩]⟩)] "a"
      ⟨.ret false, .ret false, .ret false⟩).1
      ⟨.committed, [⟨.ret true, .ret true, .ret true⟩]⟩ rfl,
    (C10_register_any_status ([] : TxRegistry) "b"
      ⟨.ret true, .ret true, .ret true⟩).2 rfl⟩

/-! ## Claim C3: only status 200 counts as success -/

/-- Claim C3 counterexample: a one-step saga whose action endpoint answers
with the 200-family status 201 and a JSON body.  The step is marked Failed
(not Executed), the cursor does not advance and the saga ends Failed: a
non-200 member of the 200 family is treated as failure, because the source
tests `response.status_code == 200` exactly. -/
theorem C3_counterexample :
    stepStateAt (execute_saga envCex sagaCex).1 0 = some .failed
    ∧ (execute_saga envCex sagaCex).1.current_step_index = 0
    ∧ (execute_saga envCex sagaCex).1.state = .failed
    ∧ (execute_saga envCex sagaCex).1.steps.length = 1 := by
  decide

/-- Claim C3 amended: during saga forward execution, a step action response
with HTTP status exactly 200 counts as success — the step is marked
Executed, its JSON body is stored verbatim as the step result and
`current_step_index` advances — while a response with any other status,
the remaining 200-family statuses such as 201 and 204 included, is treated
as failure: the step is marked Failed and compensation begins. -/
theorem C3_status_200_exact (D : Type) (env : SagaEnv D) (fuel : Nat)
    (s : Saga D) (h : s.current_step_index < s.steps.length)
    (step : SagaStep D) (hstep : s.steps[s.current_step_index]? = some step)
    (url : String) (hres : env.resolve step.service_name = some url) :
    (∀ body : D,
        env.post (url ++ step.action_endpoint) (.action step.payload) =
          .ok (200, body) →
        exec_loop env (fuel + 1) s =
          (let sOk : Saga D :=
            { s with
              steps := s.steps.set s.current_step_index
                { step with state := .executed, result := some body },
              current_step_index := s.current_step_index + 1,
              updated_at := env.now }
           ((exec_loop env fuel sOk).1,
             .actionPost (url ++ step.action_endpoint) step.payload ::
               (exec_loop env fuel sOk).2)))
    ∧ (∀ (code : Nat) (body : D),
        env.post (url ++ step.action_endpoint) (.action step.payload) =
          .ok (code, body) →
        code ≠ 200 →
        exec_loop env (fuel + 1) s =
          (let sF : Saga D :=
            { s with
              steps := s.steps.set s.current_step_index
                { step with state := .failed } }
           ((compensate_saga env sF).1,
             .actionPost (url ++ step.action_endpoint) step.payload ::
               (compensate_saga env sF).2))) := by
  have hget : s.steps[s.current_step_index] = step := by
    have h1 := List.getElem?_eq_getElem h
    rw [h1] at hstep
    exact Option.some.inj hstep
  constructor
  · intro body hpost
    simp [exec_loop, dif_pos h, setStep, List.get_eq_getElem, hget, hres,
      hpost, List.set_set]
  · intro code body hpost hcode
    simp [exec_loop, dif_pos h, setStep, List.get_eq_getElem, hget, hres,
      hpost, hcode, List.set_set]

/-! ## Compensation-walk lemmas shared by C4 and C7 -/

/-- Replacing a step leaves the length, cursor, saga state and the other
positions unchanged. -/
lemma setStep_preserve (s : Saga D) (k : Nat) (st : SagaStep D) :
    (setStep s k st).steps.length = s.steps.length
    ∧ (setStep s k st).current_step_index = s.current_step_index
    ∧ (setStep s k st).state = s.state
    ∧ ∀ i, i ≠ k → (setStep s k st).steps[i]? = s.steps[i]? :=
  ⟨List.length_set .., rfl, rfl, fun _ hi =>
    List.getElem?_set_ne (fun hk => hi hk.symm)⟩

/-- The compensation walk preserves the length of the step list, the
cursor, the saga state field, and every step at a position not below the
walk start. -/
lemma comp_loop_preserves (env : SagaEnv D) :
    ∀ (k : Nat) (s : Saga D),
      (comp_loop env k s).1.steps.length = s.steps.length
      ∧ (comp_loop env k s).1.current_step_index = s.current_step_index
      ∧ (comp_loop env k s).1.state = s.state
      ∧ ∀ i, k ≤ i → (comp_loop env k s).1.steps[i]? = s.steps[i]? := by
  intro k
  induction k with
  | zero => exact fun s => ⟨rfl, rfl, rfl, fun i _ => rfl⟩
  | succ k ih =>
      intro s
      cases hk : s.steps[k]? with
      | none =>
          obtain ⟨a, b, c, d⟩ := ih s
          exact ⟨by simp [comp_loop, hk, a], by simp [comp_loop, hk, b],
            by simp [comp_loop, hk, c],
            fun i hi => by simp [comp_loop, hk, d i (by omega)]⟩
      | some step =>
          by_cases hex : step.state = .executed
          · cases hr : env.resolve step.service_name with
            | none =>
                obtain ⟨a, b, c, d⟩ := ih
                  (setStep (setStep s k { step with state := .compensating }) k
                    { step with state := .failed })
                refine ⟨?_, ?_, ?_, fun i hi => ?_⟩
                · simpa [comp_loop, hk, hex, hr, setStep] using a
                · simpa [comp_loop, hk, hex, hr, setStep] using b
                · simpa [comp_loop, hk, hex, hr, setStep] using c
                · have hne : i ≠ k := by omega
                  have d1 := d i (by omega)
                  simp [setStep,
                    List.getElem?_set_ne (fun hik => hne hik.symm)] at d1
                  simpa [comp_loop, hk, hex, hr, setStep] using d1
            | some url =>
                cases hp : env.post (url ++ step.compensation_endpoint)
                    (.comp step.id step.payload) with
                | ok cb =>
                    obtain ⟨a, b, c, d⟩ := ih
                      { setStep (setStep s k
                          { step with state := .compensating }) k
                          { step with state :=
                              if cb.1 = 200 then .compensated else .failed } with
                        updated_at := env.now }
                    refine ⟨?_, ?_, ?_, fun i hi => ?_⟩
                    · simpa [comp_loop, hk, hex, hr, hp, setStep] using a
                    · simpa [comp_loop, hk, hex, hr, hp, setStep] using b
                    · simpa [comp_loop, hk, hex, hr, hp, setStep] using c
                    · have hne : i ≠ k := by omega
                      have d1 := d i (by omega)
                      simp [setStep,
                        List.getElem?_set_ne (fun hik => hne hik.symm)] at d1
                      simpa [comp_loop, hk, hex, hr, hp, setStep] using d1
                | error e =>
                    obtain ⟨a, b, c, d⟩ := ih
                      { setStep (setStep s k
                          { step with state := .compensating }) k
                          { step with state := .failed } with
                        updated_at := env.now }
                    refine ⟨?_, ?_, ?_, fun i hi => ?_⟩
                    · simpa [comp_loop, hk, hex, hr, hp, setStep] using a
                    · simpa [comp_loop, hk, hex, hr, hp, setStep] using b
                    · simpa [comp_loop, hk, hex, hr, hp, setStep] using c
                    · have hne : i ≠ k := by omega
                      have d1 := d i (by omega)
                      simp [setStep,
                        List.getElem?_set_ne (fun hik => hne hik.symm)] at d1
                      simpa [comp_loop, hk, hex, hr, hp, setStep] using d1
          · obtain ⟨a, b, c, d⟩ := ih s
            exact ⟨by simp [comp_loop, hk, hex, a],
              by simp [comp_loop, hk, hex, b],
              by simp [comp_loop, hk, hex, c],
              fun i hi => by simp [comp_loop, hk, hex, d i (by omega)]⟩

/-- A position carrying `some` entry is inside the list. -/
lemma lt_length_of_getElem?_some {l : List β} {i : Nat} {a : β}
    (h : l[i]? = some a) : i < l.length := by
  by_contra hh
  push_neg at hh
  rw [List.getElem?_eq_none hh] at h
  cases h

/-- Every step of the walked prefix that is in state Executed ends the
compensation walk Compensated or Failed. -/
lemma comp_loop_prefix (env : SagaEnv D) :
    ∀ (k : Nat) (s : Saga D) (i : Nat) (st : SagaStep D),
      i < k → s.steps[i]? = some st → st.state = .executed →
      stepStateAt (comp_loop env k s).1 i = some .compensated
      ∨ stepStateAt (comp_loop env k s).1 i = some .failed := by
  intro k
  induction k with
  | zero => intro s i st hik; omega
  | succ k ih =>
      intro s i st hik hsi hex0
      cases hk : s.steps[k]? with
      | none =>
          rcases Nat.lt_succ_iff_lt_or_eq.mp hik with hlt | rfl
          · have := ih s i st hlt hsi hex0
            simpa [comp_loop, hk] using this
          · rw [hk] at hsi; cases hsi
      | some step =>
          have hklen : k < s.steps.length := lt_length_of_getElem?_some hk
          by_cases hex : step.state = .executed
          · rcases Nat.lt_succ_iff_lt_or_eq.mp hik with hlt | rfl
            · -- position strictly below the one being processed
              cases hr : env.resolve step.service_name with
              | none =>
                  have hagree : (setStep (setStep s k
                      { step with state := .compensating }) k
                      { step with state := .failed }).steps[i]? =
                      s.steps[i]? := by
                    have hne : i ≠ k := by omega
                    simp [setStep,
                      List.getElem?_set_ne (fun hik1 => hne hik1.symm)]
                  have := ih _ i st hlt (by rw [hagree]; exact hsi) hex0
                  simpa [comp_loop, hk, hex, hr] using this
              | some url =>
                  cases hp : env.post (url ++ step.compensation_endpoint)
                      (.comp step.id step.payload) with
                  | ok cb =>
                      have hne : i ≠ k := by omega
                      have hagree : ({ setStep (setStep s k
                          { step with state := .compensating }) k
                          { step with state :=
                              if cb.1 = 200 then .compensated else .failed } with
                          updated_at := env.now}).steps[i]? = s.steps[i]? := by
                        simp [setStep,
                          List.getElem?_set_ne (fun hik1 => hne hik1.symm)]
                      have := ih _ i st hlt (by rw [hagree]; exact hsi) hex0
                      simpa [comp_loop, hk, hex, hr, hp] using this
                  | error e =>
                      have hne : i ≠ k := by omega
                      have hagree : ({ setStep (setStep s k
                          { step with state := .compensating }) k
                          { step with state := .failed } with
                          updated_at := env.now}).steps[i]? = s.steps[i]? := by
                        simp [setStep,
                          List.getElem?_set_ne (fun hik1 => hne hik1.symm)]
                      have := ih _ i st hlt (by rw [hagree]; exact hsi) hex0
                      simpa [comp_loop, hk, hex, hr, hp] using this
            · -- the position being processed itself
              cases hr : env.resolve step.service_name with
              | none =>
                  have hat : (setStep (setStep s i
                      { step with state := .compensating }) i
                      { step with state := .failed }).steps[i]? =
                      some { step with state := .failed } := by
                    simp [setStep, List.set_set,
                      List.getElem?_set_eq_of_lt _ (by simpa using hklen)]
                  have hpres := (comp_loop_preserves env i
                    (setStep (setStep s i { step with state := .compensating })
                      i { step with state := .failed })).2.2.2 i (le_refl i)
                  refine Or.inr ?_
                  simp only [comp_loop, hk, hex, hr, if_pos]
                  simp [stepStateAt, hpres, hat]
              | some url =>
                  cases hp : env.post (url ++ step.compensation_endpoint)
                      (.comp step.id step.payload) with
                  | ok cb =>
                      have hat : ({ setStep (setStep s i
                          { step with state := .compensating }) i
                          { step with state :=
                              if cb.1 = 200 then .compensated else .failed } with
                          updated_at := env.now }).steps[i]? =
                          some { step with state :=
                            if cb.1 = 200 then .compensated else .failed } := by
                        simp [setStep, List.set_set,
                          List.getElem?_set_eq_of_lt _ (by simpa using hklen)]
                      have hpres := (comp_loop_preserves env i
                        ({ setStep (setStep s i
                            { step with state := .compensating }) i
                            { step with state :=
                                if cb.1 = 200 then .compensated else .failed } with
                          updated_at := env.now })).2.2.2 i (le_refl i)
                      by_cases hcode : cb.1 = 200
                      · simp only [hcode, if_pos] at hat hpres
                        refine Or.inl ?_
                        simp only [comp_loop, hk, hex, hr, hp]
                        simp [stepStateAt, hpres, hat, hcode]
                      · simp only [if_neg hcode] at hat hpres
                        refine Or.inr ?_
                        simp only [comp_loop, hk, hex, hr, hp]
                        simp [stepStateAt, hpres, hat, hcode]
                  | error e =>
                      have hat : ({ setStep (setStep s i
                          { step with state := .compensating }) i
                          { step with state := .failed } with
                          updated_at := env.now }).steps[i]? =
                          some { step with state := .failed } := by
                        simp [setStep, List.set_set,
                          List.getElem?_set_eq_of_lt _ (by simpa using hklen)]
                      have hpres := (comp_loop_preserves env i
                        ({ setStep (setStep s i
                            { step with state := .compensating }) i
                            { step with state := .failed } with
                          updated_at := env.now })).2.2.2 i (le_refl i)
                      refine Or.inr ?_
                      simp only [comp_loop, hk, hex, hr, hp]
                      simp [stepStateAt, hpres, hat]
          · rcases Nat.lt_succ_iff_lt_or_eq.mp hik with hlt | rfl
            · have := ih s i st hlt hsi hex0
              simpa [comp_loop, hk, hex] using this
            · rw [hk] at hsi
              cases hsi
              exact absurd hex0 hex

/-- Pointwise equal Boolean predicates give equal `all` results. -/
lemma all_congr_on {l : List Nat} {f g : Nat → Bool}
    (h : ∀ x ∈ l, f x = g x) : l.all f = l.all g := by
  induction l with
  | nil => rfl
  | cons a t ih =>
      simp [List.all_cons, h a (List.mem_cons_self a t),
        ih fun x hx => h x (List.mem_cons_of_mem a hx)]

/-- `resolvesBelow` only looks at the steps below the bound. -/
lemma resolvesBelow_congr (env : SagaEnv D) {s1 s2 : Saga D} (k : Nat)
    (h : ∀ i, i < k → s1.steps[i]? = s2.steps[i]?) :
    resolvesBelow env s1 k = resolvesBelow env s2 k := by
  unfold resolvesBelow
  exact all_congr_on fun i hi => by rw [h i (List.mem_range.mp hi)]

/-- `resolvesBelow` at a successor bound covers the smaller bound. -/
lemma resolvesBelow_succ (env : SagaEnv D) (s : Saga D) (k : Nat)
    (h : resolvesBelow env s (k + 1) = true) :
    resolvesBelow env s k = true := by
  unfold resolvesBelow at h ⊢
  rw [List.range_succ, List.all_append] at h
  exact (Bool.and_eq_true_iff.mp h).1

/-- The step at the successor bound itself resolves when Executed. -/
lemma resolvesBelow_at (env : SagaEnv D) (s : Saga D) (k : Nat)
    (h : resolvesBelow env s (k + 1) = true) (step : SagaStep D)
    (hk : s.steps[k]? = some step) (hex : step.state = .executed) :
    (env.resolve step.service_name).isSome := by
  unfold resolvesBelow at h
  have hmem := List.all_eq_true.mp h k (List.mem_range.mpr (Nat.lt_succ_self k))
  rw [hk] at hmem
  simpa [hex] using hmem

/-- `compPairsBelow` only looks at the steps below the bound. -/
lemma compPairsBelow_congr {s1 s2 : Saga D} :
    ∀ k, (∀ i, i < k → s1.steps[i]? = s2.steps[i]?) →
      compPairsBelow s1 k = compPairsBelow s2 k := by
  intro k
  induction k with
  | zero => intro _; rfl
  | succ k ih =>
      intro h
      have hk := h k (Nat.lt_succ_self k)
      have ih1 := ih fun i hi => h i (by omega)
      unfold compPairsBelow
      rw [hk, ih1]

/-- Unfolding of `compPairsBelow` at a successor bound. -/
lemma compPairsBelow_succ (s : Saga D) (k : Nat) :
    compPairsBelow s (k + 1) =
      match s.steps[k]? with
      | none => compPairsBelow s k
      | some st =>
          if st.state = .executed then
            (st.id, st.payload) :: compPairsBelow s k
          else compPairsBelow s k := rfl

/-- The compensation walk posts exactly one compensation request per
Executed step of the walked prefix, carrying that step's id and original
payload, provided every such step's service resolves; and every event of
the walk is a compensation post. -/
lemma comp_loop_trace (env : SagaEnv D) :
    ∀ (k : Nat) (s : Saga D), resolvesBelow env s k = true →
      (comp_loop env k s).2.filterMap compProj = compPairsBelow s k
      ∧ ∀ e ∈ (comp_loop env k s).2, (compProj e).isSome := by
  intro k
  induction k with
  | zero => exact fun s _ => ⟨rfl, by intro e he; simp [comp_loop] at he⟩
  | succ k ih =>
      intro s hres
      cases hk : s.steps[k]? with
      | none =>
          have := ih s (resolvesBelow_succ env s k hres)
          refine ⟨?_, ?_⟩
          · rw [compPairsBelow_succ, hk]
            simpa [comp_loop, hk] using this.1
          · intro e he
            simp only [comp_loop, hk] at he
            exact this.2 e he
      | some step =>
          by_cases hex : step.state = .executed
          · have hrs : (env.resolve step.service_name).isSome :=
              resolvesBelow_at env s k hres step hk hex
            obtain ⟨url, hr⟩ := Option.isSome_iff_exists.mp hrs
            have hpair : compPairsBelow s (k + 1) =
                (step.id, step.payload) :: compPairsBelow s k := by
              rw [compPairsBelow_succ, hk]; simp [hex]
            cases hp : env.post (url ++ step.compensation_endpoint)
                (.comp step.id step.payload) with
            | ok cb =>
                set sR : Saga D :=
                  { setStep (setStep s k { step with state := .compensating }) k
                      { step with state :=
                          if cb.1 = 200 then .compensated else .failed } with
                    updated_at := env.now } with hsR
                have hagree : ∀ i, i < k → sR.steps[i]? = s.steps[i]? := by
                  intro i hi
                  have hne : i ≠ k := by omega
                  simp [hsR, setStep,
                    List.getElem?_set_ne fun hik => hne hik.symm]
                have hresR : resolvesBelow env sR k = true := by
                  rw [resolvesBelow_congr env k hagree]
                  exact resolvesBelow_succ env s k hres
                obtain ⟨ht, hall⟩ := ih sR hresR
                refine ⟨?_, ?_⟩
                · rw [hpair]
                  have := @compPairsBelow_congr D sR s k hagree
                  simp only [comp_loop, hk, hex, hr, hp]
                  simpa [compProj, this] using ht
                · intro e he
                  simp only [comp_loop, hk, hex, hr, hp] at he
                  rcases List.mem_cons.mp he with rfl | he1
                  · simp [compProj]
                  · exact hall e he1
            | error err =>
                set sR : Saga D :=
                  { setStep (setStep s k { step with state := .compensating }) k
                      { step with state := .failed } with
                    updated_at := env.now } with hsR
                have hagree : ∀ i, i < k → sR.steps[i]? = s.steps[i]? := by
                  intro i hi
                  have hne : i ≠ k := by omega
                  simp [hsR, setStep,
                    List.getElem?_set_ne fun hik => hne hik.symm]
                have hresR : resolvesBelow env sR k = true := by
                  rw [resolvesBelow_congr env k hagree]
                  exact resolvesBelow_succ env s k hres
                obtain ⟨ht, hall⟩ := ih sR hresR
                refine ⟨?_, ?_⟩
                · rw [hpair]
                  have := @compPairsBelow_congr D sR s k hagree
                  simp only [comp_loop, hk, hex, hr, hp]
                  simpa [compProj, this] using ht
                · intro e he
                  simp only [comp_loop, hk, hex, hr, hp] at he
                  rcases List.mem_cons.mp he with rfl | he1
                  · simp [compProj]
                  · exact hall e he1
          · have hpair : compPairsBelow s (k + 1) = compPairsBelow s k := by
              rw [compPairsBelow_succ, hk]; simp [hex]
            have := ih s (resolvesBelow_succ env s k hres)
            refine ⟨?_, ?_⟩
            · rw [hpair]
              simpa [comp_loop, hk, hex] using this.1
            · intro e he
              simp only [comp_loop, hk, hex] at he
              exact this.2 e he

/-! ## Claim C7: compensation walk -/

/-- Claim C7: `compensate_saga` — reached with the cursor still on the
failed step — walks the steps below `current_step_index` in reverse order
and, provided the service of every Executed step among them resolves,
posts the compensation endpoint exactly once per Executed step with that
step's id and original payload (`compPairsBelow` is exactly this reverse
walk), posts nothing else (steps at or beyond the cursor are never
compensated and no action posts occur), continues past individual
compensation failures — every Executed prefix step ends Compensated or
Failed whatever the endpoint answered — and finally sets the saga state to
Failed. -/
theorem C7_compensation (D : Type) (env : SagaEnv D) (s : Saga D)
    (hres : resolvesBelow env s s.current_step_index = true) :
    (compensate_saga env s).1.state = .failed
    ∧ (compensate_saga env s).2.filterMap compProj =
        compPairsBelow s s.current_step_index
    ∧ (∀ e ∈ (compensate_saga env s).2, (compProj e).isSome)
    ∧ (∀ i st, i < s.current_step_index → s.steps[i]? = some st →
        st.state = .executed →
        stepStateAt (compensate_saga env s).1 i = some .compensated
        ∨ stepStateAt (compensate_saga env s).1 i = some .failed)
    ∧ (∀ i, s.current_step_index ≤ i →
        (compensate_saga env s).1.steps[i]? = s.steps[i]?) := by
  have hsC : resolvesBelow env { s with state := SagaState.compensating }
      s.current_step_index = true := hres
  have htr := comp_loop_trace env s.current_step_index
    { s with state := SagaState.compensating } hsC
  refine ⟨rfl, ?_, ?_, ?_, ?_⟩
  · have hcongr := @compPairsBelow_congr D
      { s with state := SagaState.compensating } s
      s.current_step_index (fun i _ => rfl)
    rw [← hcongr]
    exact htr.1
  · exact htr.2
  · intro i st hi hsi hex
    exact comp_loop_prefix env s.current_step_index
      { s with state := SagaState.compensating } i st hi hsi hex
  · intro i hi
    exact (comp_loop_preserves env s.current_step_index
      { s with state := SagaState.compensating }).2.2.2 i hi

/-- Witness for C7: the three-step saga whose step 2 (index 1) failed with
the cursor at 1, under an environment whose compensation endpoint answers
500: step 1 is compensated exactly once with its id and payload, steps 2
and 3 get no compensation post, and the saga ends Failed even though the
compensation itself failed. -/
theorem C7_witness :
    (compensate_saga envC7 sagaC7).1.state = .failed
    ∧ (compensate_saga envC7 sagaC7).2.filterMap compProj =
        compPairsBelow sagaC7 sagaC7.current_step_index
    ∧ (stepStateAt (compensate_saga envC7 sagaC7).1 0 = some .compensated
        ∨ stepStateAt (compensate_saga envC7 sagaC7).1 0 = some .failed)
    ∧ (compensate_saga envC7 sagaC7).1.steps[2]? = sagaC7.steps[2]? := by
  have h := C7_compensation Nat envC7 sagaC7 (by decide)
  exact ⟨h.1, h.2.1,
    h.2.2.2.1 0 ⟨"sg7-step-0", "svcA", "/a0", "/c0", .executed, 10, some 11⟩
      (by decide) rfl rfl,
    h.2.2.2.2 2 (by decide)⟩

/-! ## Claim C4: the per-step saga invariant -/

/-- Compensation of a saga that just failed at its cursor step establishes
the Failed side of the final invariant. -/
lemma compensate_final (env : SagaEnv D) (s : Saga D)
    (hcur : s.current_step_index < s.steps.length)
    (hat : stepStateAt s s.current_step_index = some .failed)
    (hpre : ∀ i st, i < s.current_step_index → s.steps[i]? = some st →
      st.state = .executed)
    (hsuf : ∀ i st, s.current_step_index < i → s.steps[i]? = some st →
      st.state = .pending) :
    finalInv (compensate_saga env s).1 := by
  have hpres := comp_loop_preserves env s.current_step_index
    { s with state := SagaState.compensating }
  refine Or.inr ⟨rfl, ?_, ?_, ?_, ?_⟩
  · show (comp_loop env s.current_step_index
      { s with state := SagaState.compensating }).1.current_step_index <
        (comp_loop env s.current_step_index
          { s with state := SagaState.compensating }).1.steps.length
    rw [hpres.1, hpres.2.1]
    exact hcur
  · show ((comp_loop env s.current_step_index
        { s with state := SagaState.compensating }).1.steps[
          (comp_loop env s.current_step_index
            { s with state := SagaState.compensating }).1.current_step_index]?).map
        SagaStep.state = some .failed
    rw [hpres.2.1]
    show ((comp_loop env s.current_step_index
        { s with state := SagaState.compensating }).1.steps[
          s.current_step_index]?).map SagaStep.state = some .failed
    rw [hpres.2.2.2 s.current_step_index (le_refl _)]
    exact hat
  · intro i st hi hri
    have hi1 : i < (comp_loop env s.current_step_index
        { s with state := SagaState.compensating }).1.current_step_index := hi
    rw [hpres.2.1] at hi1
    have hi2 : i < s.current_step_index := hi1
    have hilen : i < s.steps.length := by omega
    have horig : s.steps[i]? = some (s.steps.get ⟨i, hilen⟩) := by
      rw [List.get_eq_getElem]
      exact List.getElem?_eq_getElem hilen
    have hexi : (s.steps.get ⟨i, hilen⟩).state = .executed :=
      hpre i _ hi2 horig
    have hcp := comp_loop_prefix env s.current_step_index
      { s with state := SagaState.compensating } i
      (s.steps.get ⟨i, hilen⟩) hi2 horig hexi
    have hri1 : (comp_loop env s.current_step_index
        { s with state := SagaState.compensating }).1.steps[i]? = some st := hri
    unfold stepStateAt at hcp
    rw [hri1] at hcp
    simpa using hcp
  · intro i st hi hri
    have hi1 : (comp_loop env s.current_step_index
        { s with state := SagaState.compensating }).1.current_step_index <
          i := hi
    rw [hpres.2.1] at hi1
    have hi2 : s.current_step_index < i := hi1
    have hri1 : (comp_loop env s.current_step_index
        { s with state := SagaState.compensating }).1.steps[i]? = some st := hri
    rw [hpres.2.2.2 i (by omega)] at hri1
    exact hsuf i st hi2 hri1

/-- Unfolding of the execution loop when all steps are done: the saga is
marked Completed. -/
lemma exec_loop_done (env : SagaEnv D) (fuel : Nat) (s : Saga D)
    (h : ¬ s.current_step_index < s.steps.length) :
    exec_loop env (fuel + 1) s =
      ({ s with state := .completed, updated_at := env.now }, []) := by
  simp [exec_loop, dif_neg h]

/-- Unfolding of the execution loop when the service of the current step
does not resolve: the step is marked Failed and compensation begins. -/
lemma exec_loop_resolve_none (env : SagaEnv D) (fuel : Nat) (s : Saga D)
    (h : s.current_step_index < s.steps.length)
    (step : SagaStep D) (hstep : s.steps[s.current_step_index]? = some step)
    (hr : env.resolve step.service_name = none) :
    exec_loop env (fuel + 1) s =
      compensate_saga env
        (setStep s s.current_step_index { step with state := .failed }) := by
  have hget : s.steps[s.current_step_index] = step := by
    have h1 := List.getElem?_eq_getElem h
    rw [h1] at hstep
    exact Option.some.inj hstep
  simp [exec_loop, dif_pos h, setStep, List.get_eq_getElem, hget, hr,
    List.set_set]

/-- Unfolding of the execution loop when the action post raises: the step
is marked Failed and compensation begins, after the recorded action
post. -/
lemma exec_loop_post_error (env : SagaEnv D) (fuel : Nat) (s : Saga D)
    (h : s.current_step_index < s.steps.length)
    (step : SagaStep D) (hstep : s.steps[s.current_step_index]? = some step)
    (url : String) (hr : env.resolve step.service_name = some url)
    (e : Unit)
    (hp : env.post (url ++ step.action_endpoint) (.action step.payload) =
      .error e) :
    exec_loop env (fuel + 1) s =
      ((compensate_saga env
          (setStep s s.current_step_index { step with state := .failed })).1,
        .actionPost (url ++ step.action_endpoint) step.payload ::
          (compensate_saga env
            (setStep s s.current_step_index
              { step with state := .failed })).2) := by
  have hget : s.steps[s.current_step_index] = step := by
    have h1 := List.getElem?_eq_getElem h
    rw [h1] at hstep
    exact Option.some.inj hstep
  simp [exec_loop, dif_pos h, setStep, List.get_eq_getElem, hget, hr, hp,
    List.set_set]

/-- The forward-execution loop, started on a saga whose walked prefix is
Executed and whose remaining steps are Pending, ends in the final
invariant, provided the fuel covers the remaining steps. -/
lemma exec_loop_final (env : SagaEnv D) :
    ∀ (fuel : Nat) (s : Saga D),
      s.current_step_index ≤ s.steps.length →
      (∀ (i : Nat) (st : SagaStep D), i < s.current_step_index →
        s.steps[i]? = some st → st.state = .executed) →
      (∀ (i : Nat) (st : SagaStep D), s.current_step_index ≤ i →
        s.steps[i]? = some st → st.state = .pending) →
      s.steps.length - s.current_step_index < fuel →
      finalInv (exec_loop env fuel s).1 := by
  intro fuel
  induction fuel with
  | zero => intro s _ _ _ hf; omega
  | succ fuel ih =>
      intro s hle hpre hsuf hf
      by_cases h : s.current_step_index < s.steps.length
      · have hget : s.steps[s.current_step_index]? =
            some s.steps[s.current_step_index] :=
          List.getElem?_eq_getElem h
        set step0 : SagaStep D := s.steps[s.current_step_index] with hstep0
        have hpend : step0.state = .pending :=
          hsuf s.current_step_index step0 (le_refl _) hget
        cases hr : env.resolve step0.service_name with
        | none =>
            rw [exec_loop_resolve_none env fuel s h step0 hget hr]
            refine compensate_final env _ ?_ ?_ ?_ ?_
            · simpa [setStep] using h
            · simp [stepStateAt, setStep,
                List.getElem?_set_eq_of_lt _ h]
            · intro i st hi hsi
              have hne : s.current_step_index ≠ i := by
                simp only [setStep] at hi
                omega
              rw [show (setStep s s.current_step_index
                  { step0 with state := .failed }).steps[i]? = s.steps[i]?
                  from List.getElem?_set_ne hne] at hsi
              exact hpre i st (by simpa [setStep] using hi) hsi
            · intro i st hi hsi
              have hne : s.current_step_index ≠ i := by
                simp only [setStep] at hi
                omega
              rw [show (setStep s s.current_step_index
                  { step0 with state := .failed }).steps[i]? = s.steps[i]?
                  from List.getElem?_set_ne hne] at hsi
              exact hsuf i st (by simp only [setStep] at hi ⊢; omega) hsi
        | some url =>
            cases hp : env.post (url ++ step0.action_endpoint)
                (.action step0.payload) with
            | error e =>
                rw [exec_loop_post_error env fuel s h step0 hget url hr e hp]
                show finalInv (compensate_saga env
                  (setStep s s.current_step_index
                    { step0 with state := .failed })).1
                refine compensate_final env _ ?_ ?_ ?_ ?_
                · simpa [setStep] using h
                · simp [stepStateAt, setStep,
                    List.getElem?_set_eq_of_lt _ h]
                · intro i st hi hsi
                  have hne : s.current_step_index ≠ i := by
                    simp only [setStep] at hi
                    omega
                  rw [show (setStep s s.current_step_index
                      { step0 with state := .failed }).steps[i]? = s.steps[i]?
                      from List.getElem?_set_ne hne] at hsi
                  exact hpre i st (by simpa [setStep] using hi) hsi
                · intro i st hi hsi
                  have hne : s.current_step_index ≠ i := by
                    simp only [setStep] at hi
                    omega
                  rw [show (setStep s s.current_step_index
                      { step0 with state := .failed }).steps[i]? = s.steps[i]?
                      from List.getElem?_set_ne hne] at hsi
                  exact hsuf i st (by simp only [setStep] at hi ⊢; omega) hsi
            | ok cb =>
                obtain ⟨code, body⟩ := cb
                by_cases hcode : code = 200
                · subst hcode
                  rw [(C3_status_200_exact D env fuel s h step0 hget url
                    hr).1 body hp]
                  show finalInv (exec_loop env fuel
                    { s with
                      steps := s.steps.set s.current_step_index
                          { step0 with
                            state := .executed,
                            result := some body },
                      current_step_index := s.current_step_index + 1,
                      updated_at := env.now }).1
                  apply ih
                  · simpa using h
                  · intro i st hi hsi
                    simp only at hi
                    rcases Nat.lt_succ_iff_lt_or_eq.mp hi with hlt | rfl
                    · have hne : s.current_step_index ≠ i := by omega
                      simp only [List.getElem?_set_ne hne] at hsi
                      exact hpre i st hlt hsi
                    · simp only [List.getElem?_set_eq_of_lt _ h] at hsi
                      cases hsi
                      rfl
                  · intro i st hi hsi
                    simp only at hi
                    have hne : s.current_step_index ≠ i := by omega
                    simp only [List.getElem?_set_ne hne] at hsi
                    exact hsuf i st (by omega) hsi
                  · simp only [List.length_set]
                    omega
                · rw [(C3_status_200_exact D env fuel s h step0 hget url
                    hr).2 code body hp hcode]
                  show finalInv (compensate_saga env
                    { s with
                      steps := s.steps.set s.current_step_index
                        { step0 with state := .failed } }).1
                  refine compensate_final env _ ?_ ?_ ?_ ?_
                  · simpa using h
                  · simp [stepStateAt, List.getElem?_set_eq_of_lt _ h]
                  · intro i st hi hsi
                    simp only at hi
                    have hne : s.current_step_index ≠ i := by omega
                    simp only [List.getElem?_set_ne hne] at hsi
                    exact hpre i st hi hsi
                  · intro i st hi hsi
                    simp only at hi
                    have hne : s.current_step_index ≠ i := by omega
                    simp only [List.getElem?_set_ne hne] at hsi
                    exact hsuf i st (by omega) hsi
      · rw [exec_loop_done env fuel s h]
        refine Or.inl ⟨rfl, ?_, ?_⟩
        · show s.current_step_index = s.steps.length
          omega
        · intro i st hsi
          have hilen : i < s.steps.length :=
            lt_length_of_getElem?_some (show s.steps[i]? = some st from hsi)
          exact hpre i st (by omega) hsi

/-- Claim C4 counterexample: the one-step saga whose action answers 201.
After execution the cursor is still 0, yet the step at index 0 — which
lies in `[currentStepIndex, end)` — is Failed, not Pending as the claim
requires. -/
theorem C4_counterexample :
    (execute_saga envCex sagaCex).1.current_step_index = 0
    ∧ stepStateAt (execute_saga envCex sagaCex).1 0 = some .failed
    ∧ StepState.failed ≠ StepState.pending := by
  decide

/-- Claim C4 amended: for a saga started fresh (all steps Pending, cursor
0), once `execute_saga` has returned, either the saga Completed with the
cursor equal to the step count and every step Executed, or it Failed with
the step at the cursor Failed — the failing step keeps the cursor and is
never reset to Pending — every step before the cursor Compensated or
Failed by the compensation walk, and every step after the cursor still
Pending. -/
theorem C4_final_invariant (D : Type) (env : SagaEnv D) (s0 : Saga D)
    (hall : s0.steps.all (fun st => decide (st.state = .pending)) = true)
    (hcur : s0.current_step_index = 0) :
    finalInv (execute_saga env s0).1 := by
  unfold execute_saga
  apply exec_loop_final
  · show s0.current_step_index ≤ s0.steps.length
    omega
  · intro i st hi _
    have hi1 : i < s0.current_step_index := hi
    omega
  · intro i st _ hsi
    have hsi1 : s0.steps[i]? = some st := hsi
    have hmem : st ∈ s0.steps := List.getElem?_mem hsi1
    exact of_decide_eq_true (List.all_eq_true.mp hall st hmem)
  · show s0.steps.length - s0.current_step_index <
      s0.steps.length - s0.current_step_index + 1
    omega

/-- Witness for C4 at the concrete one-step saga and 201-answering
environment. -/
theorem C4_witness : finalInv (execute_saga envCex sagaCex).1 :=
  C4_final_invariant Nat envCex sagaCex (by decide) rfl

/-- Witness for C3: the one-step saga under an environment answering 200
with body 55; the step ends Executed with the body stored verbatim and the
cursor advanced. -/
theorem C3_witness :
    exec_loop envOkC3 2 sagaCex =
      (⟨"sg", "sg", .completed,
          [⟨"st0", "svc", "/act", "/comp", .executed, 7, some 55⟩], 1, 0, 5⟩,
        [.actionPost "http://x/act" 7]) := by
  have h := (C3_status_200_exact Nat envOkC3 1 sagaCex (by decide)
    ⟨"st0", "svc", "/act", "/comp", .pending, 7, none⟩ rfl "http://x" rfl).1
    55 rfl
  rw [h]
  decide

end Fluxora
